import Mathlib

/-!
Shallow embedding of `app.py` (Azure Resource Scanner web viewer).

A resource record is a JSON object; the script only ever touches the four
fields `type`, `location`, `resourceGroup` and `unused`, so a record is
modelled by those four fields, each optional (a `none` field models a key
that is absent from the JSON object).  Python `r["k"]` on an absent key
raises `KeyError`; this is modelled by `Except Unit`, where `.error ()`
stands for a raised exception.
-/

deriving instance DecidableEq for Except

/-- A resource record: the four fields the script reads, each possibly
absent.  `unused?` is a boolean per the data model (`r.get("unused")`
is used only for its truthiness). -/
structure Record where
  type? : Option String
  location? : Option String
  resourceGroup? : Option String
  unused? : Option Bool
deriving DecidableEq, Repr

/-- Python `r["k"]`: value if the key is present, `KeyError` otherwise. -/
def getKey : Option α → Except Unit α
  | some v => .ok v
  | none => .error ()

/-- Truthiness of `r.get("unused")`: an absent key yields `None`, which is
falsy; a present boolean is its own truth value. -/
def truthy : Option Bool → Bool
  | some b => b
  | none => false

/-- The four sidebar filter inputs: three multiselect allow-lists and the
"Only show unused resources" checkbox. -/
structure Selection where
  typeFilter : List String
  locationFilter : List String
  groupFilter : List String
  showUnused : Bool
deriving DecidableEq, Repr

/-- Line 45-46 of `app.py`: `if show_unused and not r.get("unused"): continue`. -/
def keepUnused (sel : Selection) (r : Record) : Except Unit Bool :=
  if sel.showUnused && !(truthy r.unused?) then .ok false else .ok true

/-- Line 43-44: `if group_filter and r["resourceGroup"] not in group_filter:
continue`.  The `and` short-circuits, so `r["resourceGroup"]` is only
evaluated (and can only raise) when the allow-list is non-empty. -/
def keepGroup (sel : Selection) (r : Record) : Except Unit Bool :=
  if sel.groupFilter.isEmpty then keepUnused sel r
  else
    match r.resourceGroup? with
    | none => .error ()
    | some g => if sel.groupFilter.contains g then keepUnused sel r else .ok false

/-- Line 41-42: the `location` guard. -/
def keepLocation (sel : Selection) (r : Record) : Except Unit Bool :=
  if sel.locationFilter.isEmpty then keepGroup sel r
  else
    match r.location? with
    | none => .error ()
    | some l => if sel.locationFilter.contains l then keepGroup sel r else .ok false

/-- Line 39-40: the `type` guard; entry point of the per-record filter body. -/
def keep (sel : Selection) (r : Record) : Except Unit Bool :=
  if sel.typeFilter.isEmpty then keepLocation sel r
  else
    match r.type? with
    | none => .error ()
    | some t => if sel.typeFilter.contains t then keepLocation sel r else .ok false

/-- Lines 37-47: the filtering loop.  Records are visited in order; a
record is appended exactly when no guard skips it; a `KeyError` raised by
any guard aborts the whole loop. -/
def filteredRun (sel : Selection) : List Record → Except Unit (List Record)
  | [] => .ok []
  | r :: rs =>
    match keep sel r with
    | .error e => .error e
    | .ok true =>
      match filteredRun sel rs with
      | .error e => .error e
      | .ok fl => .ok (r :: fl)
    | .ok false => filteredRun sel rs

/-- The generator `(r["k"] for r in resources)`: extracts the field from
every record, raising `KeyError` at the first record lacking it. -/
def mapFields (proj : Record → Option String) : List Record → Except Unit (List String)
  | [] => .ok []
  | r :: rs =>
    match proj r with
    | none => .error ()
    | some v =>
      match mapFields proj rs with
      | .error e => .error e
      | .ok vs => .ok (v :: vs)

/-- Python `sorted(set(xs))`: the distinct values in ascending
lexicographic order.  Modelled as deduplication followed by insertion
sort under `String`'s linear order. -/
def sortedSet (vs : List String) : List String :=
  List.insertionSort (fun a b => a ≤ b) vs.dedup

/-- `sorted(set(r[k] for r in resources))` for one field. -/
def allField (proj : Record → Option String) (rs : List Record) : Except Unit (List String) :=
  match mapFields proj rs with
  | .error e => .error e
  | .ok vs => .ok (sortedSet vs)

/-- Line 26: `all_types = sorted(set(r["type"] for r in resources))`. -/
def allTypes (rs : List Record) : Except Unit (List String) :=
  allField (fun r => r.type?) rs

/-- Line 27: the sorted distinct locations. -/
def allLocations (rs : List Record) : Except Unit (List String) :=
  allField (fun r => r.location?) rs

/-- Line 28: the sorted distinct resource groups. -/
def allGroups (rs : List Record) : Except Unit (List String) :=
  allField (fun r => r.resourceGroup?) rs

/-- The spec's description of the filter predicate, transcribed from its
words: for each categorical field, "allow-set empty OR value in
allow-set", and "toggle false OR unused flag truthy". -/
def specKeep (sel : Selection) (r : Record) : Bool :=
  (sel.typeFilter.isEmpty || sel.typeFilter.contains ((r.type?).getD "")) &&
  ((sel.locationFilter.isEmpty || sel.locationFilter.contains ((r.location?).getD "")) &&
  ((sel.groupFilter.isEmpty || sel.groupFilter.contains ((r.resourceGroup?).getD "")) &&
  (!sel.showUnused || truthy r.unused?)))

/-- Well-formedness per the data model: every record carries the three
required categorical fields (`unused` stays optional). -/
def wf (rs : List Record) : Prop :=
  ∀ r ∈ rs, r.type?.isSome = true ∧ r.location?.isSome = true ∧ r.resourceGroup?.isSome = true

instance : DecidablePred wf := fun rs =>
  List.decidableBAll _ rs

/-!
CSV model for line 57 of `app.py`: `df.to_csv(index=False).encode('utf-8')`
and its re-parse (`pd.read_csv`).  The DataFrame built from the filtered
records has one column per field that occurs in at least one record (in
the canonical field order `type, location, resourceGroup, unused`); a cell
for an absent field is empty (pandas `NaN` serializes to the empty cell),
booleans serialize as `True`/`False`.  `to_csv` terminates every line,
header included, with a newline, and quotes minimally (`QUOTE_MINIMAL`):
a cell containing the delimiter, the quote character or a line break is
wrapped in double quotes with embedded quotes doubled.  `read_csv`
recognizes record and field separators only outside quotes, unescapes
quoted fields, skips blank lines, errors when no non-blank line remains
(`EmptyDataError`), and reads an empty cell back as a missing value.
-/

/-- Join groups with a single separator character between them. -/
def joinWith (sep : Char) : List (List Char) → List Char
  | [] => []
  | [g] => g
  | g :: gs => g ++ sep :: joinWith sep gs

/-- The quote state after scanning a character list: `true` inside a
quoted region.  Every quote character toggles the state; the doubled
quote that escapes a literal quote flips out and immediately back in, a
zero-width window no separator can fall into. -/
def qEnd (b : Bool) : List Char → Bool
  | [] => b
  | c :: cs => qEnd (if c = '\"' then !b else b) cs

/-- Whether a scan starting in quote state `b` meets no separator
outside quotes. -/
def noTopSep (sep : Char) (b : Bool) : List Char → Bool
  | [] => true
  | c :: cs =>
    if c = '\"' then noTopSep sep (!b) cs
    else if c = sep then (if b then noTopSep sep b cs else false)
    else noTopSep sep b cs

/-- Split at every separator occurring outside quotes, starting in quote
state `b`; the separator is consumed and quote characters stay in their
groups. -/
def splitQ (sep : Char) : Bool → List Char → List (List Char)
  | _, [] => [[]]
  | b, c :: cs =>
    if c = '\"' then
      match splitQ sep (!b) cs with
      | [] => [[c]]
      | g :: gs => (c :: g) :: gs
    else if c = sep then
      if b then
        match splitQ sep b cs with
        | [] => [[c]]
        | g :: gs => (c :: g) :: gs
      else [] :: splitQ sep false cs
    else
      match splitQ sep b cs with
      | [] => [[c]]
      | g :: gs => (c :: g) :: gs

/-- Whether `to_csv` must quote a cell (`QUOTE_MINIMAL`): it contains
the delimiter, the quote character or a line-break character. -/
def needsQuote (s : String) : Bool :=
  s.data.any fun c => c == ',' || c == '\"' || c == '\n' || c == '\r'

/-- Double every quote character (the escape used inside a quoted
cell). -/
def escQ : List Char → List Char
  | [] => []
  | c :: cs => if c = '\"' then '\"' :: '\"' :: escQ cs else c :: escQ cs

/-- One serialized cell: raw when no quoting is needed, otherwise
wrapped in quotes with embedded quotes doubled. -/
def encodeCell (s : String) : List Char :=
  if needsQuote s then '\"' :: (escQ s.data ++ ['\"']) else s.data

/-- Decode the inside of a quoted field: a doubled quote is a literal
quote, a single quote closes the field. -/
def unqInner : List Char → List Char
  | [] => []
  | [c] => if c = '\"' then [] else [c]
  | c :: c2 :: cs =>
    if c = '\"' then (if c2 = '\"' then '\"' :: unqInner cs else [])
    else c :: unqInner (c2 :: cs)

/-- Decode one raw field: a field opening with a quote is unescaped, any
other is kept as read. -/
def unquoteCell : List Char → List Char
  | [] => []
  | c :: cs => if c = '\"' then unqInner cs else c :: cs

/-- The DataFrame's columns: each of the four known fields, in canonical
order, when some record carries it.  `pd.DataFrame([])` has no columns. -/
def csvColumns (rows : List Record) : List String :=
  (if rows.any fun r => r.type?.isSome then ["type"] else []) ++
  (if rows.any fun r => r.location?.isSome then ["location"] else []) ++
  (if rows.any fun r => r.resourceGroup?.isSome then ["resourceGroup"] else []) ++
  (if rows.any fun r => r.unused?.isSome then ["unused"] else [])

/-- One record's cell in column `c`: the field value, `True`/`False` for
the boolean, and the empty cell for an absent field (pandas `NaN`). -/
def cellOf (r : Record) (c : String) : String :=
  if c = "type" then (r.type?).getD ""
  else if c = "location" then (r.location?).getD ""
  else if c = "resourceGroup" then (r.resourceGroup?).getD ""
  else if c = "unused" then
    match r.unused? with
    | some true => "True"
    | some false => "False"
    | none => ""
  else ""

/-- The lines of the serialization: header, then one line per record,
every cell minimally quoted. -/
def csvLines (rows : List Record) : List (List Char) :=
  (joinWith ',' ((csvColumns rows).map encodeCell)) ::
    rows.map fun r => joinWith ',' (((csvColumns rows).map (cellOf r)).map encodeCell)

/-- `df.to_csv(index=False)`: every line followed by a newline. -/
def toCsv (rows : List Record) : String :=
  String.mk ((csvLines rows).foldr (fun l acc => l ++ '\n' :: acc) [])

/-- An empty cell reads back as a missing value (`NaN`), a non-empty cell
as the string itself. -/
def parseStrCell (s : String) : Option String :=
  if s = "" then none else some s

/-- Boolean cells: `True`/`False` read back as booleans, an empty cell as
a missing value. -/
def parseUnusedCell (s : String) : Option Bool :=
  if s = "True" then some true else if s = "False" then some false else none

/-- Value of the cell under header name `name` in a row, matching headers
to cells positionally. -/
def colVal (name : String) : List String → List String → Option String
  | _, [] => none
  | [], _ => none
  | c :: cs, v :: vs => if c = name then some v else colVal name cs vs

/-- Rebuild one record from the header row and one data row. -/
def buildRecord (cols cells : List String) : Record where
  type? := (colVal "type" cols cells).bind parseStrCell
  location? := (colVal "location" cols cells).bind parseStrCell
  resourceGroup? := (colVal "resourceGroup" cols cells).bind parseStrCell
  unused? := (colVal "unused" cols cells).bind parseUnusedCell

/-- `pd.read_csv` on the exported text: split into records at newlines
outside quotes, skip blank lines, fail when none remain, then split each
line into fields at commas outside quotes and unescape each field. -/
def readCsv (s : String) : Except Unit (List Record) :=
  match (splitQ '\n' false s.data).filter (fun l => l ≠ []) with
  | [] => .error ()
  | header :: rows =>
    .ok (rows.map fun row =>
      buildRecord ((splitQ ',' false header).map fun cl => String.mk (unquoteCell cl))
        ((splitQ ',' false row).map fun cl => String.mk (unquoteCell cl)))

/-- A field value that survives the CSV round trip: non-empty, since
`read_csv` reads an empty cell back as a missing value (`NaN`), not as
the empty string.  Quoting handles every other character. -/
def goodCell (s : String) : Prop :=
  s ≠ ""

instance : DecidablePred goodCell := fun s => by
  unfold goodCell; infer_instance

/-- Precondition for the round-trip law: a non-empty row set whose
records all carry the three categorical fields with non-empty values
(`unused` stays optional). -/
def wfCsv (rows : List Record) : Prop :=
  rows ≠ [] ∧ ∀ r ∈ rows,
    (∃ t, r.type? = some t ∧ goodCell t) ∧
    (∃ l, r.location? = some l ∧ goodCell l) ∧
    (∃ g, r.resourceGroup? = some g ∧ goodCell g)

instance (o : Option String) : Decidable (∃ v, o = some v ∧ goodCell v) :=
  match o with
  | none => isFalse (by simp)
  | some v => decidable_of_iff (goodCell v) (by simp)

instance : DecidablePred wfCsv := fun rows => by
  unfold wfCsv
  infer_instance

/-!
Whole-script model.  One Streamlit rerun of `app.py` is a function of the
two input files and the sidebar state.  `st.stop()` (line 20) ends the
run normally after the error message; an uncaught Python exception ends
it abnormally; otherwise the script runs to the end.  Events record the
user-visible outputs in script order, `mainTf` the file written by the
Config Emitter (open with mode `"w"` overwrites), `options` the sidebar
option lists and `layoutPos` the node placement handed to `nx.draw`.
-/

/-- The parsed content of `dependencies.gml`: labeled nodes and edges. -/
structure GraphDesc where
  nodes : List String
  edges : List (String × String)
deriving DecidableEq, Repr

/-- A node placement: one 2D position per node label.  Coordinates are
abstracted to integers; the claims only compare placements for equality. -/
abbrev Layout : Type := List (String × Int × Int)

/-- A user-visible output of one run, in script order. -/
inductive Event where
  | errorMsg (s : String)
  | warningMsg (s : String)
  | successMsg (s : String)
  | subheader (s : String)
  | table (rows : List Record)
  | downloadButton (fname : String) (data : String)
  | graphPlot (pos : Layout)
deriving DecidableEq

/-- How a run ends: normally, via `st.stop()`, or by an uncaught
exception. -/
inductive Outcome where
  | completed
  | stopped
  | exception
deriving DecidableEq, Repr

/-- Everything observable about one run. -/
structure RunResult where
  events : List Event
  options : Option (List String × List String × List String)
  layoutPos : Option Layout
  mainTf : Option String
  outcome : Outcome
deriving DecidableEq

/-- The two input files: `none` models an absent file.  `resources.json`
is given as its parsed record list (the claims do not concern JSON
syntax errors); `dependencies.gml` as `.ok` of its parsed graph or
`.error ()` when `nx.read_gml` would raise on its content. -/
structure World where
  resources : Option (List Record)
  gml : Option (Except Unit GraphDesc)

/-- Lines 74-117: the fixed Terraform text assigned to
`terraform_config` (a newline-bracketed triple-quoted literal). -/
def terraform_config : String :=
  String.intercalate "\n"
    ["",
     "provider \"azurerm\" \x7b",
     "  features \x7b\x7d",
     "\x7d",
     "",
     "resource \"azurerm_resource_group\" \"scanner\" \x7b",
     "  name     = \"azure-scanner-rg\"",
     "  location = \"East US\"",
     "\x7d",
     "",
     "resource \"azurerm_app_service_plan\" \"scanner_plan\" \x7b",
     "  name                = \"scanner-service-plan\"",
     "  location            = azurerm_resource_group.scanner.location",
     "  resource_group_name = azurerm_resource_group.scanner.name",
     "  kind                = \"Linux\"",
     "",
     "  sku \x7b",
     "    tier = \"Basic\"",
     "    size = \"B1\"",
     "  \x7d",
     "",
     "  reserved = true",
     "\x7d",
     "",
     "resource \"azurerm_app_service\" \"scanner_app\" \x7b",
     "  name                = \"azure-scanner-web\"",
     "  location            = azurerm_resource_group.scanner.location",
     "  resource_group_name = azurerm_resource_group.scanner.name",
     "  app_service_plan_id = azurerm_app_service_plan.scanner_plan.id",
     "",
     "  site_config \x7b",
     "    linux_fx_version = \"DOCKER|streamlit/streamlit\"",
     "  \x7d",
     "",
     "  app_settings = \x7b",
     "    WEBSITES_PORT = \"8501\"",
     "  \x7d",
     "\x7d",
     ""]

/-- Line 50: `f"📋 Displaying {len(filtered)} of {len(resources)} resources"`. -/
def countMsg (m n : Nat) : String :=
  "📋 Displaying " ++ toString m ++ " of " ++ toString n ++ " resources"

/-- Line 19 error text. -/
def missingResourcesMsg : String := "resources.json not found. Run the scanner first."

/-- Line 72 advisory text. -/
def missingGraphMsg : String :=
  "Dependency graph not found. Run the scanner to generate dependencies.gml."

/-- Line 122 success text (apostrophes written as `\x27`). -/
def tfSavedMsg : String := "Terraform configuration saved as \x27main.tf\x27"

/-- Line 65 subheader text. -/
def graphHeaderMsg : String := "🧩 Resource Dependency Graph"

/-- One rerun of `app.py`, parameterized by the layout algorithm
(`nx.spring_layout`, a pure function of the graph and the `seed`
argument).  Mirrors the script's order: existence check and stop (18-20),
option derivation (26-28), filtering (37-47), table and download (50-60),
graph section (63-72), Terraform write and success message (119-122).
An uncaught `KeyError` from lines 26-28 or the filter loop, or a parse
failure in `nx.read_gml` (64), aborts the run with no further output. -/
def runScript (layout : GraphDesc → Nat → Layout) (w : World) (sel : Selection) : RunResult :=
  match w.resources with
  | none =>
    { events := [.errorMsg missingResourcesMsg], options := none, layoutPos := none,
      mainTf := none, outcome := .stopped }
  | some rs =>
    match allTypes rs, allLocations rs, allGroups rs with
    | .ok ts, .ok ls, .ok gs =>
      match filteredRun sel rs with
      | .error _ =>
        { events := [], options := some (ts, ls, gs), layoutPos := none,
          mainTf := none, outcome := .exception }
      | .ok fl =>
        let tableEvents : List Event :=
          [.subheader (countMsg fl.length rs.length), .table fl,
           .downloadButton "azure_resources.csv" (toCsv fl)]
        match w.gml with
        | some (.ok g) =>
          let pos := layout g 42
          { events := tableEvents ++
              [.subheader graphHeaderMsg, .graphPlot pos, .successMsg tfSavedMsg],
            options := some (ts, ls, gs), layoutPos := some pos,
            mainTf := some terraform_config, outcome := .completed }
        | some (.error _) =>
          { events := tableEvents, options := some (ts, ls, gs), layoutPos := none,
            mainTf := none, outcome := .exception }
        | none =>
          { events := tableEvents ++ [.warningMsg missingGraphMsg, .successMsg tfSavedMsg],
            options := some (ts, ls, gs), layoutPos := none,
            mainTf := some terraform_config, outcome := .completed }
    | _, _, _ =>
      { events := [], options := none, layoutPos := none,
        mainTf := none, outcome := .exception }

/-- The sidebar option triple computed by a well-formed run. -/
def wfOptions (rs : List Record) : List String × List String × List String :=
  (sortedSet (rs.map fun r => (r.type?).getD ""),
   sortedSet (rs.map fun r => (r.location?).getD ""),
   sortedSet (rs.map fun r => (r.resourceGroup?).getD ""))

/-- The table/download events every complete run shows. -/
def tableEventsOf (sel : Selection) (rs : List Record) : List Event :=
  [.subheader (countMsg (rs.filter fun r => specKeep sel r).length rs.length),
   .table (rs.filter fun r => specKeep sel r),
   .downloadButton "azure_resources.csv" (toCsv (rs.filter fun r => specKeep sel r))]

/-- First record of the spec's worked example. -/
def exR1 : Record := ⟨some "VM", some "eastus", some "rg1", some true⟩

/-- Second record of the spec's worked example. -/
def exR2 : Record := ⟨some "VM", some "westus", some "rg1", some false⟩

/-- A record with uniform field values and `unused` present. -/
def uR1 : Record := ⟨some "VM", some "eastus", some "rg1", some false⟩

/-- A record with uniform field values and `unused` absent. -/
def uR2 : Record := ⟨some "VM", some "eastus", some "rg1", none⟩

/-- The spec example's selection: type allow-set `VM`, unused-only on. -/
def exSel : Selection := ⟨["VM"], [], [], true⟩

/-- A trivial layout algorithm used to instantiate run-level theorems. -/
def constLayout : GraphDesc → Nat → Layout := fun _ _ => []

/-- A uniform-valued record marked unused, for the C5 witness. -/
def uR3 : Record := ⟨some "VM", some "eastus", some "rg1", some true⟩

/-- A small concrete graph for run-level witnesses. -/
def gEx : GraphDesc := ⟨["a", "b"], [("a", "b")]⟩

/-! Helper lemmas about the Filter Engine. -/

theorem keepUnused_eq (sel : Selection) (r : Record) :
    keepUnused sel r = .ok (!sel.showUnused || truthy r.unused?) := by
  unfold keepUnused
  cases hs : sel.showUnused <;> cases ht : truthy r.unused? <;> simp [hs, ht]

theorem keepGroup_eq (sel : Selection) (r : Record) (g : String)
    (hg : r.resourceGroup? = some g) :
    keepGroup sel r =
      .ok ((sel.groupFilter.isEmpty || sel.groupFilter.contains g) &&
        (!sel.showUnused || truthy r.unused?)) := by
  unfold keepGroup
  rw [hg]
  cases he : sel.groupFilter.isEmpty <;> by_cases hc : g ∈ sel.groupFilter <;>
    simp [he, hc, keepUnused_eq]

theorem keepLocation_eq (sel : Selection) (r : Record) (l g : String)
    (hl : r.location? = some l) (hg : r.resourceGroup? = some g) :
    keepLocation sel r =
      .ok ((sel.locationFilter.isEmpty || sel.locationFilter.contains l) &&
        ((sel.groupFilter.isEmpty || sel.groupFilter.contains g) &&
          (!sel.showUnused || truthy r.unused?))) := by
  unfold keepLocation
  rw [hl]
  cases he : sel.locationFilter.isEmpty <;> by_cases hc : l ∈ sel.locationFilter <;>
    simp [he, hc, keepGroup_eq sel r g hg]

theorem keep_eq_specKeep (sel : Selection) (r : Record) (t l g : String)
    (ht : r.type? = some t) (hl : r.location? = some l) (hg : r.resourceGroup? = some g) :
    keep sel r = .ok (specKeep sel r) := by
  unfold keep specKeep
  rw [ht, hl, hg]
  simp only [Option.getD_some]
  cases he : sel.typeFilter.isEmpty <;> by_cases hc : t ∈ sel.typeFilter <;>
    simp [he, hc, keepLocation_eq sel r l g hl hg]

theorem filteredRun_eq_filter (sel : Selection) (rs : List Record) (h : wf rs) :
    filteredRun sel rs = .ok (rs.filter fun r => specKeep sel r) := by
  induction rs with
  | nil => rfl
  | cons r rs ih =>
    obtain ⟨h1, h2, h3⟩ := h r (by simp)
    obtain ⟨t, ht⟩ := Option.isSome_iff_exists.mp h1
    obtain ⟨l, hl⟩ := Option.isSome_iff_exists.mp h2
    obtain ⟨g, hg⟩ := Option.isSome_iff_exists.mp h3
    have hk := keep_eq_specKeep sel r t l g ht hl hg
    have ih' := ih fun x hx => h x (List.mem_cons_of_mem r hx)
    cases hsk : specKeep sel r <;>
      simp [filteredRun, hk, hsk, ih', List.filter_cons]

/-! Helper lemmas about option derivation. -/

theorem mapFields_ok_of_isSome (proj : Record → Option String) (rs : List Record)
    (h : ∀ r ∈ rs, (proj r).isSome = true) :
    mapFields proj rs = .ok (rs.map fun r => (proj r).getD "") := by
  induction rs with
  | nil => rfl
  | cons r rs ih =>
    obtain ⟨v, hv⟩ := Option.isSome_iff_exists.mp (h r (List.mem_cons_self r rs))
    have ih' := ih fun x hx => h x (List.mem_cons_of_mem r hx)
    simp [mapFields, hv, ih']

theorem allField_ok_of_isSome (proj : Record → Option String) (rs : List Record)
    (h : ∀ r ∈ rs, (proj r).isSome = true) :
    allField proj rs = .ok (sortedSet (rs.map fun r => (proj r).getD "")) := by
  unfold allField
  rw [mapFields_ok_of_isSome proj rs h]

theorem sortedSet_sorted (vs : List String) :
    List.Sorted (fun a b : String => a ≤ b) (sortedSet vs) :=
  List.sorted_insertionSort _ _

theorem sortedSet_nodup (vs : List String) : (sortedSet vs).Nodup :=
  ((List.perm_insertionSort _ _).nodup_iff).mpr (List.nodup_dedup vs)

theorem mem_sortedSet (vs : List String) (v : String) : v ∈ sortedSet vs ↔ v ∈ vs := by
  unfold sortedSet
  rw [List.mem_insertionSort]
  exact List.mem_dedup

theorem mem_map_getD_iff (proj : Record → Option String) (rs : List Record)
    (h : ∀ r ∈ rs, (proj r).isSome = true) (v : String) :
    (v ∈ rs.map fun r => (proj r).getD "") ↔ ∃ r ∈ rs, proj r = some v := by
  simp only [List.mem_map]
  constructor
  · rintro ⟨r, hr, hv⟩
    obtain ⟨w, hw⟩ := Option.isSome_iff_exists.mp (h r hr)
    exact ⟨r, hr, by rw [hw]; rw [hw] at hv; simpa using hv⟩
  · rintro ⟨r, hr, hv⟩
    exact ⟨r, hr, by rw [hv]; rfl⟩

/-! Helper lemmas for sublist and idempotence of the filter (C4). -/

theorem filteredRun_sublist_idem (sel : Selection) (rs fl : List Record)
    (h : filteredRun sel rs = .ok fl) :
    fl.Sublist rs ∧ filteredRun sel fl = .ok fl := by
  induction rs generalizing fl with
  | nil =>
    simp [filteredRun] at h
    subst h
    exact ⟨List.Sublist.refl [], rfl⟩
  | cons r rs ih =>
    cases hk : keep sel r with
    | error e => simp [filteredRun, hk] at h
    | ok b =>
      cases b with
      | false =>
        simp only [filteredRun, hk] at h
        obtain ⟨hsub, hidem⟩ := ih fl h
        exact ⟨hsub.cons r, hidem⟩
      | true =>
        simp only [filteredRun, hk] at h
        cases hrec : filteredRun sel rs with
        | error e => rw [hrec] at h; exact absurd h (by simp)
        | ok fl' =>
          rw [hrec] at h
          simp only [Except.ok.injEq] at h
          subst h
          obtain ⟨hsub, hidem⟩ := ih fl' hrec
          refine ⟨hsub.cons₂ r, ?_⟩
          simp [filteredRun, hk, hidem]

/-! Helper lemmas about quote-aware splitting and joining of character
lists. -/

theorem qEnd_append (b : Bool) (l1 l2 : List Char) :
    qEnd b (l1 ++ l2) = qEnd (qEnd b l1) l2 := by
  induction l1 generalizing b with
  | nil => rfl
  | cons c cs ih =>
    simp only [List.cons_append, qEnd]
    exact ih _

theorem noTopSep_append (sep : Char) (b : Bool) (l1 l2 : List Char) :
    noTopSep sep b (l1 ++ l2) =
      (noTopSep sep b l1 && noTopSep sep (qEnd b l1) l2) := by
  induction l1 generalizing b with
  | nil => simp [noTopSep, qEnd]
  | cons c cs ih =>
    simp only [List.cons_append, noTopSep, qEnd]
    by_cases hq : c = '\"'
    · simp [hq, ih]
    · by_cases hs : c = sep
      · rcases hs with rfl
        cases b <;> simp [hq, ih]
      · simp [hq, hs, ih]

theorem splitQ_quote (sep : Char) (b : Bool) (cs : List Char) :
    splitQ sep b ('\"' :: cs) =
      match splitQ sep (!b) cs with
      | [] => [['\"']]
      | g :: gs => ('\"' :: g) :: gs := by
  conv_lhs => unfold splitQ
  simp

theorem splitQ_other (sep : Char) (b : Bool) (c : Char) (cs : List Char)
    (hq : c ≠ '\"') (hs : c ≠ sep) :
    splitQ sep b (c :: cs) =
      match splitQ sep b cs with
      | [] => [[c]]
      | g :: gs => (c :: g) :: gs := by
  conv_lhs => unfold splitQ
  simp [hq, hs]

theorem splitQ_sep_out (sep : Char) (cs : List Char) (hsep : sep ≠ '\"') :
    splitQ sep false (sep :: cs) = [] :: splitQ sep false cs := by
  conv_lhs => unfold splitQ
  simp [hsep]

theorem splitQ_sep_in (sep : Char) (cs : List Char) (hsep : sep ≠ '\"') :
    splitQ sep true (sep :: cs) =
      match splitQ sep true cs with
      | [] => [[sep]]
      | g :: gs => (sep :: g) :: gs := by
  conv_lhs => unfold splitQ
  simp [hsep]

theorem splitQ_ne_nil (sep : Char) (b : Bool) (cs : List Char) :
    splitQ sep b cs ≠ [] := by
  induction cs generalizing b with
  | nil => simp [splitQ]
  | cons c cs ih =>
    by_cases hq : c = '\"'
    · rcases hq with rfl
      rw [splitQ_quote]
      cases h : splitQ sep (!b) cs with
      | nil => simp
      | cons g gs => simp
    · by_cases hs : c = sep
      · rcases hs with rfl
        cases b with
        | false =>
          rw [splitQ_sep_out c cs hq]
          simp
        | true =>
          rw [splitQ_sep_in c cs hq]
          cases h : splitQ c true cs with
          | nil => simp
          | cons g gs => simp
      · rw [splitQ_other sep b c cs hq hs]
        cases h : splitQ sep b cs with
        | nil => simp
        | cons g gs => simp

theorem splitQ_no_sep (sep : Char) (l : List Char) :
    ∀ b, noTopSep sep b l = true → splitQ sep b l = [l] := by
  induction l with
  | nil =>
    intro b _
    rfl
  | cons c cs ih =>
    intro b h
    by_cases hq : c = '\"'
    · rcases hq with rfl
      have h' : noTopSep sep (!b) cs = true := by simpa [noTopSep] using h
      rw [splitQ_quote, ih (!b) h']
    · by_cases hs : c = sep
      · rcases hs with rfl
        cases b with
        | false => simp [noTopSep, hq] at h
        | true =>
          have h' : noTopSep c true cs = true := by simpa [noTopSep, hq] using h
          rw [splitQ_sep_in c cs hq, ih true h']
      · have h' : noTopSep sep b cs = true := by simpa [noTopSep, hq, hs] using h
        rw [splitQ_other sep b c cs hq hs, ih b h']

theorem splitQ_append (sep : Char) (hsep : sep ≠ '\"') (l rest : List Char) :
    ∀ b, noTopSep sep b l = true → qEnd b l = false →
      splitQ sep b (l ++ sep :: rest) = l :: splitQ sep false rest := by
  induction l with
  | nil =>
    intro b h1 h2
    have hb : b = false := h2
    subst hb
    rw [List.nil_append, splitQ_sep_out sep rest hsep]
  | cons c cs ih =>
    intro b h1 h2
    by_cases hq : c = '\"'
    · rcases hq with rfl
      have h1' : noTopSep sep (!b) cs = true := by simpa [noTopSep] using h1
      have h2' : qEnd (!b) cs = false := by simpa [qEnd] using h2
      rw [List.cons_append, splitQ_quote, ih (!b) h1' h2']
    · by_cases hs : c = sep
      · rcases hs with rfl
        cases b with
        | false => simp [noTopSep, hq] at h1
        | true =>
          have h1' : noTopSep c true cs = true := by simpa [noTopSep, hq] using h1
          have h2' : qEnd true cs = false := by simpa [qEnd, hq] using h2
          rw [List.cons_append, splitQ_sep_in c _ hsep, ih true h1' h2']
      · have h1' : noTopSep sep b cs = true := by simpa [noTopSep, hq, hs] using h1
        have h2' : qEnd b cs = false := by simpa [qEnd, hq] using h2
        rw [List.cons_append, splitQ_other sep b c _ hq hs, ih b h1' h2']

theorem joinWith_cons₂_ne_nil (sep : Char) (g1 g2 : List Char) (gs : List (List Char)) :
    joinWith sep (g1 :: g2 :: gs) ≠ [] := by
  have hj : joinWith sep (g1 :: g2 :: gs) = g1 ++ sep :: joinWith sep (g2 :: gs) := rfl
  rw [hj]
  cases g1 <;> simp

theorem splitQ_lines (lines : List (List Char))
    (h : ∀ l ∈ lines, noTopSep '\n' false l = true ∧ qEnd false l = false) :
    splitQ '\n' false (lines.foldr (fun l acc => l ++ '\n' :: acc) []) = lines ++ [[]] := by
  induction lines with
  | nil => rfl
  | cons l lines ih =>
    have hfold : (l :: lines).foldr (fun l acc => l ++ '\n' :: acc) [] =
        l ++ '\n' :: lines.foldr (fun l acc => l ++ '\n' :: acc) [] := rfl
    obtain ⟨h1, h2⟩ := h l (List.mem_cons_self l lines)
    rw [hfold, splitQ_append '\n' (by decide) l _ false h1 h2,
      ih fun x hx => h x (List.mem_cons_of_mem l hx)]
    rfl

theorem splitQ_joinWith (sep : Char) (hsep : sep ≠ '\"') (gs : List (List Char))
    (hne : gs ≠ [])
    (h : ∀ g ∈ gs, noTopSep sep false g = true ∧ qEnd false g = false) :
    splitQ sep false (joinWith sep gs) = gs := by
  induction gs with
  | nil => exact absurd rfl hne
  | cons g gs ih =>
    cases gs with
    | nil =>
      unfold joinWith
      exact splitQ_no_sep sep g false (h g (List.mem_cons_self g [])).1
    | cons g2 gs2 =>
      have hj : joinWith sep (g :: g2 :: gs2) = g ++ sep :: joinWith sep (g2 :: gs2) := rfl
      obtain ⟨h1, h2⟩ := h g (List.mem_cons_self g _)
      rw [hj, splitQ_append sep hsep g _ false h1 h2,
        ih (by simp) fun x hx => h x (List.mem_cons_of_mem g hx)]

theorem filter_lines_append_nil (lines : List (List Char)) (h : ∀ l ∈ lines, l ≠ []) :
    (lines ++ [([] : List Char)]).filter (fun l => l ≠ []) = lines := by
  rw [List.filter_append]
  have h1 : lines.filter (fun l => l ≠ []) = lines :=
    List.filter_eq_self.mpr fun l hl => by simpa using h l hl
  have h2 : ([([] : List Char)]).filter (fun l => l ≠ []) = [] := rfl
  rw [h1, h2, List.append_nil]

theorem stringMkData (s : String) : String.mk s.data = s := rfl

/-! Helper lemmas about the minimal quoting. -/

theorem noTopSep_of_plain (sep : Char) (l : List Char)
    (h : ∀ c ∈ l, c ≠ '\"' ∧ c ≠ sep) : ∀ b, noTopSep sep b l = true := by
  induction l with
  | nil =>
    intro b
    rfl
  | cons c cs ih =>
    intro b
    obtain ⟨hq, hs⟩ := h c (List.mem_cons_self c cs)
    simp only [noTopSep, if_neg hq, if_neg hs]
    exact ih (fun x hx => h x (List.mem_cons_of_mem c hx)) b

theorem qEnd_of_no_quote (l : List Char) (h : ∀ c ∈ l, c ≠ '\"') :
    ∀ b, qEnd b l = b := by
  induction l with
  | nil =>
    intro b
    rfl
  | cons c cs ih =>
    intro b
    simp only [qEnd, if_neg (h c (List.mem_cons_self c cs))]
    exact ih (fun x hx => h x (List.mem_cons_of_mem c hx)) b

theorem escQ_scan (sep : Char) (hsep : sep ≠ '\"') (cs : List Char) :
    noTopSep sep true (escQ cs ++ ['\"']) = true ∧
      qEnd true (escQ cs ++ ['\"']) = false := by
  induction cs with
  | nil =>
    constructor
    · simp [escQ, noTopSep]
    · simp [escQ, qEnd]
  | cons c cs ih =>
    by_cases hc : c = '\"'
    · rcases hc with rfl
      have hstep : escQ ('\"' :: cs) ++ ['\"'] = '\"' :: '\"' :: (escQ cs ++ ['\"']) := by
        simp [escQ]
      rw [hstep]
      constructor
      · simpa [noTopSep] using ih.1
      · simpa [qEnd] using ih.2
    · have hstep : escQ (c :: cs) ++ ['\"'] = c :: (escQ cs ++ ['\"']) := by
        simp [escQ, hc]
      rw [hstep]
      constructor
      · by_cases hs : c = sep
        · rcases hs with rfl
          simpa [noTopSep, hc] using ih.1
        · simpa [noTopSep, hc, hs] using ih.1
      · simpa [qEnd, hc] using ih.2

theorem encodeCell_scan (sep : Char) (hsep : sep ≠ '\"')
    (hspec : sep = ',' ∨ sep = '\n' ∨ sep = '\r') (s : String) :
    noTopSep sep false (encodeCell s) = true ∧ qEnd false (encodeCell s) = false := by
  unfold encodeCell
  by_cases hnq : needsQuote s = true
  · rw [if_pos hnq]
    constructor
    · simpa [noTopSep] using (escQ_scan sep hsep s.data).1
    · simpa [qEnd] using (escQ_scan sep hsep s.data).2
  · rw [if_neg hnq]
    have hplain : ∀ c ∈ s.data, c ≠ '\"' ∧ c ≠ sep := by
      intro c hc
      have hnot : ¬(c == ',' || c == '\"' || c == '\n' || c == '\r') = true := fun hcon =>
        hnq (List.any_eq_true.mpr ⟨c, hc, hcon⟩)
      constructor
      · intro hq
        exact hnot (by subst hq; decide)
      · intro hs2
        rcases hspec with rfl | rfl | rfl <;> exact hnot (by subst hs2; decide)
    constructor
    · exact noTopSep_of_plain sep s.data hplain false
    · exact qEnd_of_no_quote s.data (fun c hc => (hplain c hc).1) false

theorem unqInner_escQ (cs : List Char) : unqInner (escQ cs ++ ['\"']) = cs := by
  induction cs with
  | nil => rfl
  | cons c cs ih =>
    by_cases hc : c = '\"'
    · rcases hc with rfl
      have hstep : escQ ('\"' :: cs) ++ ['\"'] = '\"' :: '\"' :: (escQ cs ++ ['\"']) := by
        simp [escQ]
      rw [hstep]
      have hred : unqInner ('\"' :: '\"' :: (escQ cs ++ ['\"'])) =
          '\"' :: unqInner (escQ cs ++ ['\"']) := by
        simp [unqInner]
      rw [hred, ih]
    · have hstep : escQ (c :: cs) ++ ['\"'] = c :: (escQ cs ++ ['\"']) := by
        simp [escQ, hc]
      rw [hstep]
      cases h : escQ cs ++ ['\"'] with
      | nil => exact absurd h (by simp)
      | cons d ds =>
        simp only [unqInner, if_neg hc]
        rw [← h, ih]

theorem unquoteCell_encodeCell (s : String) : unquoteCell (encodeCell s) = s.data := by
  unfold encodeCell
  by_cases hnq : needsQuote s = true
  · rw [if_pos hnq]
    simp only [unquoteCell, if_pos rfl]
    exact unqInner_escQ s.data
  · rw [if_neg hnq]
    cases hd : s.data with
    | nil => rfl
    | cons c cs =>
      have hc : c ≠ '\"' := by
        intro hq
        apply hnq
        refine List.any_eq_true.mpr ⟨c, ?_, by subst hq; decide⟩
        rw [hd]
        exact List.mem_cons_self c cs
      simp [unquoteCell, hc]

theorem map_unquote_encode (cells : List String) :
    ((cells.map encodeCell).map fun cl => String.mk (unquoteCell cl)) = cells := by
  rw [List.map_map]
  have hpt : ∀ s ∈ cells, ((fun cl => String.mk (unquoteCell cl)) ∘ encodeCell) s = id s := by
    intro s _
    simp only [Function.comp_apply, unquoteCell_encodeCell, stringMkData, id]
  rw [List.map_congr_left hpt, List.map_id]

theorem joinWith_scan (sepJ sep2 : Char) (hJq : sepJ ≠ '\"') (hJs : sepJ ≠ sep2)
    (gs : List (List Char))
    (h : ∀ g ∈ gs, noTopSep sep2 false g = true ∧ qEnd false g = false) :
    noTopSep sep2 false (joinWith sepJ gs) = true ∧
      qEnd false (joinWith sepJ gs) = false := by
  induction gs with
  | nil => constructor <;> rfl
  | cons g gs ih =>
    cases gs with
    | nil => simpa [joinWith] using h g (List.mem_cons_self g [])
    | cons g2 gs2 =>
      have hj : joinWith sepJ (g :: g2 :: gs2) = g ++ sepJ :: joinWith sepJ (g2 :: gs2) := rfl
      obtain ⟨h1, h2⟩ := h g (List.mem_cons_self g _)
      obtain ⟨ih1, ih2⟩ := ih fun x hx => h x (List.mem_cons_of_mem g hx)
      constructor
      · rw [hj, noTopSep_append, h1, h2]
        simp only [Bool.true_and, noTopSep, if_neg hJq, if_neg hJs]
        exact ih1
      · rw [hj, qEnd_append, h2]
        simp only [qEnd, if_neg hJq]
        exact ih2

/-! Helper lemmas about the CSV columns and record rebuilding. -/

theorem csvColumns_eq (rows : List Record) (h : wfCsv rows) :
    csvColumns rows = ["type", "location", "resourceGroup"] ++
      (if rows.any fun r => r.unused?.isSome then ["unused"] else []) := by
  obtain ⟨hne, hall⟩ := h
  cases rows with
  | nil => exact absurd rfl hne
  | cons r rs =>
    obtain ⟨⟨t, ht, _⟩, ⟨l, hl, _⟩, ⟨g, hg, _⟩⟩ := hall r (List.mem_cons_self r rs)
    have h1 : (r :: rs).any (fun x => x.type?.isSome) = true :=
      List.any_eq_true.mpr ⟨r, List.mem_cons_self r rs, by simp [ht]⟩
    have h2 : (r :: rs).any (fun x => x.location?.isSome) = true :=
      List.any_eq_true.mpr ⟨r, List.mem_cons_self r rs, by simp [hl]⟩
    have h3 : (r :: rs).any (fun x => x.resourceGroup?.isSome) = true :=
      List.any_eq_true.mpr ⟨r, List.mem_cons_self r rs, by simp [hg]⟩
    simp only [csvColumns, h1, h2, h3, if_true]
    rfl

theorem buildRecord_inv3 (r : Record) (t l g : String)
    (ht : r.type? = some t) (hgt : goodCell t)
    (hl : r.location? = some l) (hgl : goodCell l)
    (hg : r.resourceGroup? = some g) (hgg : goodCell g)
    (hu : r.unused? = none) :
    buildRecord ["type", "location", "resourceGroup"]
      (["type", "location", "resourceGroup"].map (cellOf r)) = r := by
  obtain ⟨rt, rl, rg, ru⟩ := r
  simp only at ht hl hg hu
  subst ht hl hg hu
  simp only [goodCell] at hgt hgl hgg
  simp [buildRecord, colVal, cellOf, parseStrCell, hgt, hgl, hgg]

theorem buildRecord_inv4 (r : Record) (t l g : String)
    (ht : r.type? = some t) (hgt : goodCell t)
    (hl : r.location? = some l) (hgl : goodCell l)
    (hg : r.resourceGroup? = some g) (hgg : goodCell g) :
    buildRecord ["type", "location", "resourceGroup", "unused"]
      (["type", "location", "resourceGroup", "unused"].map (cellOf r)) = r := by
  obtain ⟨rt, rl, rg, ru⟩ := r
  simp only at ht hl hg
  subst ht hl hg
  simp only [goodCell] at hgt hgl hgg
  match ru with
  | none => simp [buildRecord, colVal, cellOf, parseStrCell, parseUnusedCell, hgt, hgl, hgg]
  | some true =>
    simp [buildRecord, colVal, cellOf, parseStrCell, parseUnusedCell, hgt, hgl, hgg]
  | some false =>
    simp [buildRecord, colVal, cellOf, parseStrCell, parseUnusedCell, hgt, hgl, hgg]

theorem readCsv_cons (header : List Char) (rls : List (List Char)) (s : String)
    (hs : (splitQ '\n' false s.data).filter (fun l => l ≠ []) = header :: rls) :
    readCsv s = .ok (rls.map fun row =>
      buildRecord ((splitQ ',' false header).map fun cl => String.mk (unquoteCell cl))
        ((splitQ ',' false row).map fun cl => String.mk (unquoteCell cl))) := by
  unfold readCsv
  rw [hs]

theorem readCsv_toCsv_core (rows : List Record) (cols : List String)
    (hcols : csvColumns rows = cols)
    (hcase : cols = ["type", "location", "resourceGroup"] ∨
             cols = ["type", "location", "resourceGroup", "unused"])
    (hall : ∀ r ∈ rows,
      (∃ t, r.type? = some t ∧ goodCell t) ∧
      (∃ l, r.location? = some l ∧ goodCell l) ∧
      (∃ g, r.resourceGroup? = some g ∧ goodCell g))
    (hun : ∀ r ∈ rows, cols = ["type", "location", "resourceGroup"] → r.unused? = none) :
    readCsv (toCsv rows) = .ok rows := by
  have hlines : csvLines rows =
      joinWith ',' (cols.map encodeCell) ::
        rows.map (fun r => joinWith ',' ((cols.map (cellOf r)).map encodeCell)) := by
    simp only [csvLines, hcols]
  have hcolsne : ∃ c1 c2 cs, cols = c1 :: c2 :: cs := by
    rcases hcase with rfl | rfl
    · exact ⟨_, _, _, rfl⟩
    · exact ⟨_, _, _, rfl⟩
  have hcellcomma : ∀ l : List String, ∀ e ∈ l.map encodeCell,
      noTopSep ',' false e = true ∧ qEnd false e = false := by
    intro l e he
    obtain ⟨v, _, rfl⟩ := List.mem_map.mp he
    exact encodeCell_scan ',' (by decide) (Or.inl rfl) v
  have hcellnl : ∀ l : List String, ∀ e ∈ l.map encodeCell,
      noTopSep '\n' false e = true ∧ qEnd false e = false := by
    intro l e he
    obtain ⟨v, _, rfl⟩ := List.mem_map.mp he
    exact encodeCell_scan '\n' (by decide) (Or.inr (Or.inl rfl)) v
  have hnl : ∀ cl ∈ csvLines rows,
      noTopSep '\n' false cl = true ∧ qEnd false cl = false := by
    rw [hlines]
    intro cl hcl
    rcases List.mem_cons.mp hcl with rfl | hcl
    · exact joinWith_scan ',' '\n' (by decide) (by decide) _ (hcellnl cols)
    · obtain ⟨r, hr, rfl⟩ := List.mem_map.mp hcl
      exact joinWith_scan ',' '\n' (by decide) (by decide) _ (hcellnl (cols.map (cellOf r)))
  have hlne : ∀ cl ∈ csvLines rows, cl ≠ [] := by
    rw [hlines]
    intro cl hcl
    obtain ⟨c1, c2, cs, hc⟩ := hcolsne
    rcases List.mem_cons.mp hcl with rfl | hcl
    · rw [hc]
      simp only [List.map_cons]
      exact joinWith_cons₂_ne_nil _ _ _ _
    · obtain ⟨r, hr, rfl⟩ := List.mem_map.mp hcl
      rw [hc]
      simp only [List.map_cons]
      exact joinWith_cons₂_ne_nil _ _ _ _
  have hsplit : (splitQ '\n' false (toCsv rows).data).filter (fun l => l ≠ []) =
      joinWith ',' (cols.map encodeCell) ::
        rows.map (fun r => joinWith ',' ((cols.map (cellOf r)).map encodeCell)) := by
    have hdata : (toCsv rows).data =
        (csvLines rows).foldr (fun l acc => l ++ '\n' :: acc) [] := rfl
    rw [hdata, splitQ_lines _ hnl, filter_lines_append_nil _ hlne, hlines]
  rw [readCsv_cons _ _ _ hsplit]
  have hheadersplit :
      ((splitQ ',' false (joinWith ',' (cols.map encodeCell))).map
        fun cl => String.mk (unquoteCell cl)) = cols := by
    rcases hcase with rfl | rfl
    · rfl
    · rfl
  have hpt : ∀ r ∈ rows,
      buildRecord
        ((splitQ ',' false (joinWith ',' (cols.map encodeCell))).map
          fun cl => String.mk (unquoteCell cl))
        ((splitQ ',' false
          (joinWith ',' ((cols.map (cellOf r)).map encodeCell))).map
          fun cl => String.mk (unquoteCell cl)) = r := by
    intro r hr
    obtain ⟨⟨t, ht, hgt⟩, ⟨l, hl, hgl⟩, ⟨g, hg, hgg⟩⟩ := hall r hr
    rw [hheadersplit]
    have hcellsne : (cols.map (cellOf r)).map encodeCell ≠ [] := by
      obtain ⟨c1, c2, cs, hc⟩ := hcolsne
      rw [hc]
      simp
    rw [splitQ_joinWith ',' (by decide) _ hcellsne (hcellcomma (cols.map (cellOf r))),
      map_unquote_encode]
    rcases hcase with rfl | rfl
    · exact buildRecord_inv3 r t l g ht hgt hl hgl hg hgg (hun r hr rfl)
    · exact buildRecord_inv4 r t l g ht hgt hl hgl hg hgg
  simp only [Except.ok.injEq]
  rw [List.map_map]
  have hid : ∀ r ∈ rows,
      ((fun row => buildRecord
          ((splitQ ',' false (joinWith ',' (cols.map encodeCell))).map
            fun cl => String.mk (unquoteCell cl))
          ((splitQ ',' false row).map fun cl => String.mk (unquoteCell cl))) ∘
        (fun r => joinWith ',' ((cols.map (cellOf r)).map encodeCell))) r = id r := by
    intro r hr
    simpa [Function.comp] using hpt r hr
  rw [List.map_congr_left hid, List.map_id]

theorem readCsv_toCsv (rows : List Record) (h : wfCsv rows) :
    readCsv (toCsv rows) = .ok rows := by
  have hcols := csvColumns_eq rows h
  cases hu : rows.any (fun r => r.unused?.isSome) with
  | false =>
    rw [hu] at hcols
    simp at hcols
    refine readCsv_toCsv_core rows _ hcols (Or.inl rfl) h.2 ?_
    intro r hr _
    cases hru : r.unused? with
    | none => rfl
    | some b =>
      exfalso
      have hany : rows.any (fun r => r.unused?.isSome) = true :=
        List.any_eq_true.mpr ⟨r, hr, by simp [hru]⟩
      rw [hu] at hany
      exact Bool.false_ne_true hany
  | true =>
    rw [hu] at hcols
    simp at hcols
    refine readCsv_toCsv_core rows _ hcols (Or.inr rfl) h.2 ?_
    intro r hr hcontra
    exact absurd hcontra (by decide)

/-! Helper lemmas for whole-script runs over well-formed record lists. -/

theorem allTypes_ok (rs : List Record) (h : wf rs) :
    allTypes rs = .ok (sortedSet (rs.map fun r => (r.type?).getD "")) :=
  allField_ok_of_isSome _ rs fun r hr => (h r hr).1

theorem allLocations_ok (rs : List Record) (h : wf rs) :
    allLocations rs = .ok (sortedSet (rs.map fun r => (r.location?).getD "")) :=
  allField_ok_of_isSome _ rs fun r hr => (h r hr).2.1

theorem allGroups_ok (rs : List Record) (h : wf rs) :
    allGroups rs = .ok (sortedSet (rs.map fun r => (r.resourceGroup?).getD "")) :=
  allField_ok_of_isSome _ rs fun r hr => (h r hr).2.2

theorem runScript_graph_none (f : GraphDesc → Nat → Layout) (rs : List Record)
    (sel : Selection) (h : wf rs) :
    runScript f ⟨some rs, none⟩ sel =
      { events := tableEventsOf sel rs ++ [.warningMsg missingGraphMsg, .successMsg tfSavedMsg],
        options := some (wfOptions rs), layoutPos := none,
        mainTf := some terraform_config, outcome := .completed } := by
  simp only [runScript, allTypes_ok rs h, allLocations_ok rs h, allGroups_ok rs h,
    filteredRun_eq_filter sel rs h, tableEventsOf, wfOptions]

theorem runScript_graph_ok (f : GraphDesc → Nat → Layout) (rs : List Record)
    (sel : Selection) (g : GraphDesc) (h : wf rs) :
    runScript f ⟨some rs, some (.ok g)⟩ sel =
      { events := tableEventsOf sel rs ++
          [.subheader graphHeaderMsg, .graphPlot (f g 42), .successMsg tfSavedMsg],
        options := some (wfOptions rs), layoutPos := some (f g 42),
        mainTf := some terraform_config, outcome := .completed } := by
  simp only [runScript, allTypes_ok rs h, allLocations_ok rs h, allGroups_ok rs h,
    filteredRun_eq_filter sel rs h, tableEventsOf, wfOptions]

theorem runScript_graph_bad (f : GraphDesc → Nat → Layout) (rs : List Record)
    (sel : Selection) (h : wf rs) :
    runScript f ⟨some rs, some (.error ())⟩ sel =
      { events := tableEventsOf sel rs, options := some (wfOptions rs), layoutPos := none,
        mainTf := none, outcome := .exception } := by
  simp only [runScript, allTypes_ok rs h, allLocations_ok rs h, allGroups_ok rs h,
    filteredRun_eq_filter sel rs h, tableEventsOf, wfOptions]

/-! Claim theorems. -/

/-- C1 counterexample: a record lacking the `type` key makes the
option derivation (line 26) and the filter loop with an active type
filter (line 39) raise `KeyError`, contradicting the claim that
filtering completes normally on records missing any of the four
fields. -/
theorem c1_counterexample :
    allTypes [⟨none, some "eastus", some "rg1", none⟩] = .error () ∧
    filteredRun ⟨["VM"], [], [], false⟩ [⟨none, some "eastus", some "rg1", none⟩] =
      .error () :=
  ⟨rfl, rfl⟩

/-- C1 (amended): over records that carry the three categorical fields,
option derivation and filtering complete normally, and a record lacking
only `unused` is treated exactly as one whose `unused` is `false`. -/
theorem c1_missing_fields_amended (rs : List Record) (sel : Selection) (r : Record)
    (h : wf rs) (hru : r.unused? = none) :
    allTypes rs = .ok (sortedSet (rs.map fun x => (x.type?).getD "")) ∧
    allLocations rs = .ok (sortedSet (rs.map fun x => (x.location?).getD "")) ∧
    allGroups rs = .ok (sortedSet (rs.map fun x => (x.resourceGroup?).getD "")) ∧
    filteredRun sel rs = .ok (rs.filter fun x => specKeep sel x) ∧
    keep sel r = keep sel { r with unused? := some false } := by
  refine ⟨allTypes_ok rs h, allLocations_ok rs h, allGroups_ok rs h,
    filteredRun_eq_filter sel rs h, ?_⟩
  simp [keep, keepLocation, keepGroup, keepUnused, truthy, hru]

/-- C1 witness: the amended claim at a concrete record list with the
three categorical fields present and a record lacking `unused`. -/
theorem c1_missing_fields_amended_witness :
    allTypes [uR1, uR2] = .ok (sortedSet ([uR1, uR2].map fun x => (x.type?).getD "")) ∧
    allLocations [uR1, uR2] = .ok (sortedSet ([uR1, uR2].map fun x => (x.location?).getD "")) ∧
    allGroups [uR1, uR2] =
      .ok (sortedSet ([uR1, uR2].map fun x => (x.resourceGroup?).getD "")) ∧
    filteredRun exSel [uR1, uR2] = .ok ([uR1, uR2].filter fun x => specKeep exSel x) ∧
    keep exSel uR2 = keep exSel { uR2 with unused? := some false } :=
  c1_missing_fields_amended [uR1, uR2] exSel uR2 (by decide) rfl

/-- C2 counterexample: with the primary record file absent the script
stops at line 20, before the Terraform write at line 119, so `main.tf`
is not written on that run — the claim's "regardless of whether the
primary record file exists" fails. -/
theorem c2_counterexample :
    (runScript constLayout ⟨none, none⟩ ⟨[], [], [], false⟩).mainTf = none ∧
    (runScript constLayout ⟨none, none⟩ ⟨[], [], [], false⟩).outcome = Outcome.stopped :=
  ⟨rfl, rfl⟩

/-- C2 (amended): on every run that reaches the end of the script (the
primary record file exists, its records are well-formed, and the graph
file, when present, parses), the Config Emitter writes the one fixed
Terraform text to `main.tf`; the content is a constant, hence
byte-identical across all such runs and selections. -/
theorem c2_config_written_amended (f : GraphDesc → Nat → Layout) (rs : List Record)
    (sel : Selection) (gml : Option (Except Unit GraphDesc)) (h : wf rs)
    (hg : gml ≠ some (.error ())) :
    (runScript f ⟨some rs, gml⟩ sel).mainTf = some terraform_config := by
  match gml with
  | none => rw [runScript_graph_none f rs sel h]
  | some (.ok g) => rw [runScript_graph_ok f rs sel g h]
  | some (.error ()) => exact absurd rfl hg

/-- C2 witness: the amended claim at a concrete world. -/
theorem c2_config_written_amended_witness :
    (runScript constLayout ⟨some [uR1], none⟩ exSel).mainTf = some terraform_config :=
  c2_config_written_amended constLayout [uR1] exSel none (by decide) (by decide)

/-- C3: over well-formed record lists the Filter Engine returns exactly
the ordered sublist of records satisfying the spec's conjunctive
predicate (allow-set empty or value allowed, for each categorical field,
and toggle off or unused truthy). -/
theorem c3_filter_exact (sel : Selection) (rs : List Record) (h : wf rs) :
    filteredRun sel rs = .ok (rs.filter fun r => specKeep sel r) :=
  filteredRun_eq_filter sel rs h

/-- C3 witness: the spec's two-record example with type allow-set `VM`
and unused-only on yields exactly the first record. -/
theorem c3_filter_exact_witness :
    filteredRun exSel [exR1, exR2] = .ok ([exR1, exR2].filter fun r => specKeep exSel r) ∧
    ([exR1, exR2].filter fun r => specKeep exSel r) = [exR1] :=
  ⟨c3_filter_exact exSel [exR1, exR2] (by decide), by decide⟩

/-- C4: every successful filter output is a subsequence of the input and
re-filtering the output with the same selection returns it unchanged. -/
theorem c4_sublist_idempotent (sel : Selection) (rs fl : List Record)
    (h : filteredRun sel rs = .ok fl) :
    fl.Sublist rs ∧ filteredRun sel fl = .ok fl :=
  filteredRun_sublist_idem sel rs fl h

/-- C4 witness: the spec example's output is a subsequence and a fixed
point of the same filter. -/
theorem c4_sublist_idempotent_witness :
    List.Sublist [exR1] [exR1, exR2] ∧ filteredRun exSel [exR1] = .ok [exR1] :=
  c4_sublist_idempotent exSel [exR1, exR2] [exR1] rfl

/-- The sidebar option triple is the same on every run over the same
well-formed record list, whatever the graph file and the selection. -/
theorem runScript_options_wf (f : GraphDesc → Nat → Layout)
    (gml : Option (Except Unit GraphDesc)) (rs : List Record) (sel : Selection)
    (h : wf rs) :
    (runScript f ⟨some rs, gml⟩ sel).options = some (wfOptions rs) := by
  match gml with
  | none => rw [runScript_graph_none f rs sel h]
  | some (.ok g) => rw [runScript_graph_ok f rs sel g h]
  | some (.error ()) => rw [runScript_graph_bad f rs sel h]

/-- C5 counterexample: the round-trip law fails on two inputs the claim
covers.  The empty filtered set serializes to a single blank line
(`pd.DataFrame([])` has no columns) and re-parsing that text fails
(`EmptyDataError`) instead of returning the empty record set; and a
record carrying an empty-string value serializes to an empty cell,
which re-parses as a missing value (`NaN`), not as the empty string. -/
theorem c5_roundtrip_counterexample :
    (toCsv [] = "\n" ∧ readCsv (toCsv []) = .error ()) ∧
    readCsv (toCsv [⟨some "", some "eastus", some "rg1", none⟩]) ≠
      .ok [⟨some "", some "eastus", some "rg1", none⟩] :=
  ⟨⟨rfl, rfl⟩, by decide⟩

/-- C5 (amended): the export always serializes exactly the currently
filtered set (the download data is its serialization, never the full
set's), and for a non-empty filtered set whose records carry the three
categorical fields with non-empty values, re-parsing the exported text
yields the filtered set; minimal quoting covers values containing
delimiter, quote or line-break characters. -/
theorem c5_export_roundtrip_amended (f : GraphDesc → Nat → Layout)
    (gml : Option (Except Unit GraphDesc)) (rs : List Record) (sel : Selection)
    (h : wf rs) (hcsv : wfCsv (rs.filter fun r => specKeep sel r)) :
    Event.downloadButton "azure_resources.csv" (toCsv (rs.filter fun r => specKeep sel r)) ∈
      (runScript f ⟨some rs, gml⟩ sel).events ∧
    readCsv (toCsv (rs.filter fun r => specKeep sel r)) =
      .ok (rs.filter fun r => specKeep sel r) := by
  refine ⟨?_, readCsv_toCsv _ hcsv⟩
  match gml with
  | none =>
    rw [runScript_graph_none f rs sel h]
    simp [tableEventsOf]
  | some (.ok g) =>
    rw [runScript_graph_ok f rs sel g h]
    simp [tableEventsOf]
  | some (.error ()) =>
    rw [runScript_graph_bad f rs sel h]
    simp [tableEventsOf]

/-- C5 witness: the amended claim at a concrete run whose filtered set
is the single unused record. -/
theorem c5_export_roundtrip_amended_witness :
    Event.downloadButton "azure_resources.csv"
        (toCsv ([uR3, uR1].filter fun r => specKeep exSel r)) ∈
      (runScript constLayout ⟨some [uR3, uR1], none⟩ exSel).events ∧
    readCsv (toCsv ([uR3, uR1].filter fun r => specKeep exSel r)) =
      .ok ([uR3, uR1].filter fun r => specKeep exSel r) :=
  c5_export_roundtrip_amended constLayout none [uR3, uR1] exSel (by decide) (by decide)

/-- C6: with the primary record file absent, the run shows only the
fatal missing-input message and stops: no option lists, no table, no
download, no graph, no Terraform write. -/
theorem c6_missing_resources_halts (f : GraphDesc → Nat → Layout)
    (gml : Option (Except Unit GraphDesc)) (sel : Selection) :
    runScript f ⟨none, gml⟩ sel =
      { events := [.errorMsg missingResourcesMsg], options := none, layoutPos := none,
        mainTf := none, outcome := .stopped } := rfl

/-- C7: with the primary file present and well-formed but the graph file
absent, the run completes normally: table and download events appear,
the advisory warning is shown, no layout is computed, and the Terraform
file is still written. -/
theorem c7_missing_graph_advisory (f : GraphDesc → Nat → Layout) (rs : List Record)
    (sel : Selection) (h : wf rs) :
    runScript f ⟨some rs, none⟩ sel =
      { events := tableEventsOf sel rs ++ [.warningMsg missingGraphMsg, .successMsg tfSavedMsg],
        options := some (wfOptions rs), layoutPos := none,
        mainTf := some terraform_config, outcome := .completed } :=
  runScript_graph_none f rs sel h

/-- C7 witness: the graph-absent run at a concrete record list. -/
theorem c7_missing_graph_advisory_witness :
    runScript constLayout ⟨some [uR1], none⟩ exSel =
      { events := tableEventsOf exSel [uR1] ++
          [.warningMsg missingGraphMsg, .successMsg tfSavedMsg],
        options := some (wfOptions [uR1]), layoutPos := none,
        mainTf := some terraform_config, outcome := .completed } :=
  c7_missing_graph_advisory constLayout [uR1] exSel (by decide)

/-- C8: the three option lists are the sorted duplicate-free lists of
exactly the field values occurring in the loaded records, and the
`options` a run computes do not depend on the filter selection or on
the graph file. -/
theorem c8_options_sorted_invariant (rs : List Record) (ts ls gs : List String)
    (f : GraphDesc → Nat → Layout) (gml gml2 : Option (Except Unit GraphDesc))
    (sel sel2 : Selection) (h : wf rs)
    (ht : allTypes rs = .ok ts) (hl : allLocations rs = .ok ls)
    (hg : allGroups rs = .ok gs) :
    (List.Sorted (fun a b : String => a ≤ b) ts ∧ ts.Nodup ∧
      ∀ v, v ∈ ts ↔ ∃ r ∈ rs, r.type? = some v) ∧
    (List.Sorted (fun a b : String => a ≤ b) ls ∧ ls.Nodup ∧
      ∀ v, v ∈ ls ↔ ∃ r ∈ rs, r.location? = some v) ∧
    (List.Sorted (fun a b : String => a ≤ b) gs ∧ gs.Nodup ∧
      ∀ v, v ∈ gs ↔ ∃ r ∈ rs, r.resourceGroup? = some v) ∧
    (runScript f ⟨some rs, gml⟩ sel).options =
      (runScript f ⟨some rs, gml2⟩ sel2).options := by
  rw [allTypes_ok rs h] at ht
  rw [allLocations_ok rs h] at hl
  rw [allGroups_ok rs h] at hg
  simp only [Except.ok.injEq] at ht hl hg
  subst ht hl hg
  refine ⟨⟨sortedSet_sorted _, sortedSet_nodup _, fun v => ?_⟩,
    ⟨sortedSet_sorted _, sortedSet_nodup _, fun v => ?_⟩,
    ⟨sortedSet_sorted _, sortedSet_nodup _, fun v => ?_⟩, ?_⟩
  · rw [mem_sortedSet]
    exact mem_map_getD_iff (fun r => r.type?) rs (fun r hr => (h r hr).1) v
  · rw [mem_sortedSet]
    exact mem_map_getD_iff (fun r => r.location?) rs (fun r hr => (h r hr).2.1) v
  · rw [mem_sortedSet]
    exact mem_map_getD_iff (fun r => r.resourceGroup?) rs (fun r hr => (h r hr).2.2) v
  · rw [runScript_options_wf f gml rs sel h, runScript_options_wf f gml2 rs sel2 h]

/-- C8 witness: the options at a concrete record list, with the
invariance conjunct comparing a graph-absent filtered run against a
graph-present unfiltered run. -/
theorem c8_options_sorted_invariant_witness :
    (List.Sorted (fun a b : String => a ≤ b) ["VM"] ∧ (["VM"] : List String).Nodup ∧
      ∀ v, v ∈ ["VM"] ↔ ∃ r ∈ [uR3, uR1], r.type? = some v) ∧
    (List.Sorted (fun a b : String => a ≤ b) ["eastus"] ∧
      (["eastus"] : List String).Nodup ∧
      ∀ v, v ∈ ["eastus"] ↔ ∃ r ∈ [uR3, uR1], r.location? = some v) ∧
    (List.Sorted (fun a b : String => a ≤ b) ["rg1"] ∧ (["rg1"] : List String).Nodup ∧
      ∀ v, v ∈ ["rg1"] ↔ ∃ r ∈ [uR3, uR1], r.resourceGroup? = some v) ∧
    (runScript constLayout ⟨some [uR3, uR1], none⟩ exSel).options =
      (runScript constLayout ⟨some [uR3, uR1], some (.ok gEx)⟩ ⟨[], [], [], false⟩).options :=
  c8_options_sorted_invariant [uR3, uR1] ["VM"] ["eastus"] ["rg1"] constLayout none
    (some (.ok gEx)) exSel ⟨[], [], [], false⟩ (by decide) rfl rfl rfl

/-- C9: the node placement a run hands to the renderer is the layout
algorithm applied to the parsed graph and the fixed seed 42, so any two
runs over the same graph content place the nodes identically, whatever
the record lists and selections. -/
theorem c9_layout_deterministic (f : GraphDesc → Nat → Layout) (g : GraphDesc)
    (rs1 rs2 : List Record) (sel1 sel2 : Selection) (h1 : wf rs1) (h2 : wf rs2) :
    (runScript f ⟨some rs1, some (.ok g)⟩ sel1).layoutPos = some (f g 42) ∧
    (runScript f ⟨some rs2, some (.ok g)⟩ sel2).layoutPos =
      (runScript f ⟨some rs1, some (.ok g)⟩ sel1).layoutPos := by
  rw [runScript_graph_ok f rs1 sel1 g h1, runScript_graph_ok f rs2 sel2 g h2]
  exact ⟨rfl, rfl⟩

/-- C9 witness: two concrete runs over the same graph place nodes
identically. -/
theorem c9_layout_deterministic_witness :
    (runScript constLayout ⟨some [uR1], some (.ok gEx)⟩ exSel).layoutPos =
      some (constLayout gEx 42) ∧
    (runScript constLayout ⟨some [uR3], some (.ok gEx)⟩ ⟨[], [], [], false⟩).layoutPos =
      (runScript constLayout ⟨some [uR1], some (.ok gEx)⟩ exSel).layoutPos :=
  c9_layout_deterministic constLayout gEx [uR1] [uR3] exSel ⟨[], [], [], false⟩
    (by decide) (by decide)

/-- C10: when the graph file exists but does not parse, the run ends in
an uncaught exception after the table events, with no advisory warning
and no Terraform write. -/
theorem c10_unparseable_graph_raises (f : GraphDesc → Nat → Layout) (rs : List Record)
    (sel : Selection) (h : wf rs) :
    runScript f ⟨some rs, some (.error ())⟩ sel =
      { events := tableEventsOf sel rs, options := some (wfOptions rs), layoutPos := none,
        mainTf := none, outcome := .exception } ∧
    Event.warningMsg missingGraphMsg ∉ (runScript f ⟨some rs, some (.error ())⟩ sel).events := by
  refine ⟨runScript_graph_bad f rs sel h, ?_⟩
  rw [runScript_graph_bad f rs sel h]
  simp [tableEventsOf]

/-- C10 witness: a concrete run over an unparseable graph file. -/
theorem c10_unparseable_graph_raises_witness :
    runScript constLayout ⟨some [uR1], some (.error ())⟩ exSel =
      { events := tableEventsOf exSel [uR1], options := some (wfOptions [uR1]),
        layoutPos := none, mainTf := none, outcome := .exception } ∧
    Event.warningMsg missingGraphMsg ∉
      (runScript constLayout ⟨some [uR1], some (.error ())⟩ exSel).events :=
  c10_unparseable_graph_raises constLayout [uR1] exSel (by decide)
